import Mathlib

/-
  Verification development for the trinity repository slice:
  the fork-aware block import pipeline and the Merkle-proof-verified
  deposit record.  Definitions are shallow embeddings of the source;
  components of the pipeline whose code is not part of the repository
  slice are modelled from the design specification, as marked on each
  definition.
-/

namespace Trinity

/-! ## Fixed-depth Merkle tree (spec section 4.1) -/

/-- Digests are modelled as natural numbers (an abstract fixed-size hash
value).  The pairwise hash is an explicit parameter, matching the design
treatment of the hash primitive as an external collaborator. -/
abbrev Digest := Nat

/-- A pairwise hash function used to combine two child digests. -/
abbrev HashFn := Digest → Digest → Digest

/-- The all-zero placeholder digest used for absent leaves. -/
def zeroDigest : Digest := 0

/-- Modelled from the spec: section 4.1 fixed-depth Merkle tree (the tree
code itself is not in the repository slice).  `node H leaves d i` is the
digest of the node at level `d` (0 = leaf level), horizontal index `i`,
of the complete tree over `leaves`; a leaf missing from a partially
filled tree is the all-zero placeholder digest, recursively hashed
upward with the same placeholder rule. -/
def node (H : HashFn) (leaves : List Digest) : Nat → Nat → Digest
  | 0, i => if h : i < leaves.length then leaves.get ⟨i, h⟩ else zeroDigest
  | d + 1, i => H (node H leaves d (2 * i)) (node H leaves d (2 * i + 1))

/-- Index of the sibling of node `i` within its level. -/
def sibIdx (i : Nat) : Nat := if i % 2 = 0 then i + 1 else i - 1

/-- Modelled from the spec: the list of sibling digests along the path
from level `d` upward, for `count` levels, starting at horizontal index
`i` of level `d`. -/
def sibsUp (H : HashFn) (leaves : List Digest) (d : Nat) (i : Nat) : Nat → List Digest
  | 0 => []
  | count + 1 =>
      node H leaves d (sibIdx i) :: sibsUp H leaves (d + 1) (i / 2) count

/-- Modelled from the spec: recombination of a leaf digest with a list of
sibling digests, using the low bits of `index` to decide on which side
each sibling is hashed in. -/
def recomb (H : HashFn) (leaf : Digest) : List Digest → Nat → Digest
  | [], _ => leaf
  | s :: rest, index =>
      recomb H (if index % 2 = 1 then H s leaf else H leaf s) rest (index / 2)

/-- Modelled from the spec: recombination over a full proof of length
`depth + 1`: every entry but the last is a path sibling ordered by the
index bits; the final entry is the tree-size marker, mixed in without
ordering. -/
def mixRecomb (H : HashFn) (leaf : Digest) : List Digest → Nat → Digest
  | [], _ => leaf
  | [m], _ => H leaf m
  | s :: r :: rest, index =>
      mixRecomb H (if index % 2 = 1 then H s leaf else H leaf s) (r :: rest) (index / 2)

/-- Modelled from the spec: `compute_root(leaves, depth)`; the root of
the complete depth-`depth` tree, with the leaf count mixed in as a
marker to distinguish trees of different leaf counts but identical leaf
content. -/
def compute_root (H : HashFn) (leaves : List Digest) (depth : Nat) : Digest :=
  H (node H leaves depth 0) leaves.length

/-- Modelled from the spec: `proof_for(i)`; the inclusion proof for leaf
index `i` in a depth-`depth` tree: the `depth` path siblings followed by
the tree-size marker, `depth + 1` entries in all. -/
def proof_for (H : HashFn) (leaves : List Digest) (depth : Nat) (i : Nat) : List Digest :=
  sibsUp H leaves 0 i depth ++ [leaves.length]

/-- Modelled from the spec: `verify_proof(leaf, proof, root)`; a total
boolean predicate recombining the leaf with the proof entries (sibling
order selected by the bits of `index`) and comparing the result with
`root`.  Returns false, never an error, on mismatch. -/
def verify_proof (H : HashFn) (leaf : Digest) (proof : List Digest)
    (index : Nat) (root : Digest) : Bool :=
  decide (mixRecomb H leaf proof index = root)

/-! ## Deposit record (src/eth2/beacon/types/deposits.py) -/

/-- A 32-byte digest: a byte list of length exactly 32. -/
def Hash32 : Type := { l : List Nat // l.length = 32 }

instance : DecidableEq Hash32 := fun a b =>
  decidable_of_iff (a.val = b.val) Subtype.ext_iff.symm

/-- The all-zero 32-byte digest (ZERO_HASH32 of eth.constants). -/
def ZERO_HASH32 : Hash32 := ⟨List.replicate 32 0, List.length_replicate 32 0⟩

/-- Modelled from the spec: the fixed deposit-contract tree depth
(DEPOSIT_CONTRACT_TREE_DEPTH of eth2.beacon.constants, a module not in
the repository slice).  Its concrete value is immaterial to the claims,
which are stated relative to the depth. -/
def DEPOSIT_CONTRACT_TREE_DEPTH : Nat := 32

/-- The fixed size of a deposit proof vector: tree depth plus one
(the extra slot carries the tree-size mix-in). -/
def DEPOSIT_PROOF_VECTOR_SIZE : Nat := DEPOSIT_CONTRACT_TREE_DEPTH + 1

/-- Modelled from the spec: DepositData (eth2.beacon.types.deposit_data,
not in the repository slice): 48-byte public key, 32-byte withdrawal
credentials, 8-byte little-endian amount, 96-byte signature. -/
structure DepositData where
  pubkey : { l : List Nat // l.length = 48 }
  withdrawal_credentials : Hash32
  amount : Nat
  signature : { l : List Nat // l.length = 96 }

/-- Modelled from the spec: the default DepositData placeholder, with
every field all-zero. -/
def default_deposit_data : DepositData :=
  ⟨⟨List.replicate 48 0, List.length_replicate 48 0⟩,
   ZERO_HASH32,
   0,
   ⟨List.replicate 96 0, List.length_replicate 96 0⟩⟩

/-- Modelled from the spec: default_tuple_of_size, the all-zero default
proof: ZERO_HASH32 repeated DEPOSIT_PROOF_VECTOR_SIZE times. -/
def default_proof_tuple : { l : List Hash32 // l.length = DEPOSIT_PROOF_VECTOR_SIZE } :=
  ⟨List.replicate DEPOSIT_PROOF_VECTOR_SIZE ZERO_HASH32,
   List.length_replicate DEPOSIT_PROOF_VECTOR_SIZE ZERO_HASH32⟩

/-- The Deposit record of src/eth2/beacon/types/deposits.py: a Merkle
proof vector of exactly DEPOSIT_PROOF_VECTOR_SIZE 32-byte digests (the
ssz Vector sedes enforces the length) together with a DepositData.  The
field defaults embed the default arguments of the source constructor. -/
structure Deposit where
  proof : { l : List Hash32 // l.length = DEPOSIT_PROOF_VECTOR_SIZE } := default_proof_tuple
  data : DepositData := default_deposit_data

/-- A Deposit constructed with no arguments, as in the source default
construction. -/
def defaultDeposit : Deposit := {}

/-! ## Chain data model (spec section 3) -/

/-- Modelled from the spec: BlockHeader (evm.rlp.headers, not in the
repository slice); the field list follows the genesis parameter record
of the fixture test. -/
structure BlockHeader where
  parent_hash : Nat
  uncles_hash : Nat
  coinbase : Nat
  state_root : Nat
  transaction_root : Nat
  receipt_root : Nat
  bloom : Nat
  difficulty : Nat
  block_number : Nat
  gas_limit : Nat
  gas_used : Nat
  timestamp : Nat
  extra_data : List Nat
  mix_hash : Nat
  nonce : Nat
deriving DecidableEq, Repr

/-- The flat field sequence of a header, used for its canonical
identifier. -/
def headerFields (h : BlockHeader) : List Nat :=
  [h.parent_hash, h.uncles_hash, h.coinbase, h.state_root,
   h.transaction_root, h.receipt_root, h.bloom, h.difficulty,
   h.block_number, h.gas_limit, h.gas_used, h.timestamp,
   h.extra_data.length] ++ h.extra_data ++ [h.mix_hash, h.nonce]

/-- Modelled from the spec: the canonical identifier of a header, a
digest of its canonical encoding (the concrete hash primitive is an
external collaborator; a deterministic fold over the fields stands in
for it). -/
def headerHash (h : BlockHeader) : Digest :=
  (headerFields h).foldl (fun a f => a * 1000000007 + f) 7

/-- Modelled from the spec: a transaction; signature validity is carried
as an abstract boolean outcome of the external signature check. -/
structure Transaction where
  sender : Nat
  toAddr : Nat
  value : Nat
  nonce : Nat
  gasPrice : Nat
  gasLimit : Nat
  sigValid : Bool
deriving DecidableEq, Repr

/-- Modelled from the spec: a block is a header plus ordered transaction
and ommer-header sequences. -/
structure Block where
  header : BlockHeader
  transactions : List Transaction
  ommers : List BlockHeader
deriving DecidableEq, Repr

/-- Modelled from the spec: an account: balance, nonce, code, storage. -/
structure Account where
  balance : Nat
  nonce : Nat
  code : List Nat
  storage : List (Nat × Nat)
deriving DecidableEq, Repr

/-- The empty account, the value of any address never touched. -/
def emptyAccount : Account := ⟨0, 0, [], []⟩

/-- Modelled from the spec: the account-state store, a mapping from
address to account, embedded as an association list. -/
abbrev ChainState : Type := List (Nat × Account)

/-- Look up the account at an address; an absent address is the empty
account. -/
def lookupAccount (st : ChainState) (a : Nat) : Account :=
  match st.find? (fun p => p.1 == a) with
  | some p => p.2
  | none => emptyAccount

/-- Store an account at an address, replacing any previous binding. -/
def setAccount (st : ChainState) (a : Nat) (acct : Account) : ChainState :=
  (a, acct) :: st.filter (fun p => p.1 != a)

/-! ## Fork rule table (spec section 4.3) -/

/-- Modelled from the spec: a ForkRule: height range with optional open
end, a named rule-set identifier, and the per-fork policy data and
functions (difficulty rule as a function reference, gas-limit bound
divisor and block reward as plain data). -/
structure ForkRule where
  start : Nat
  stop : Option Nat
  ruleId : Nat
  gasLimitBoundDivisor : Nat := 1024
  blockReward : Nat := 5
  diffPolicy : BlockHeader → Nat → Nat := fun parent _ => parent.difficulty

/-- Does the rule range contain the given height. -/
def containsHeight (r : ForkRule) (h : Nat) : Bool :=
  decide (r.start ≤ h) &&
    match r.stop with
    | none => true
    | some e => decide (h < e)

/-- Modelled from the spec: the construction-time well-formedness scan
of a rule table: starting from a given lower bound, ranges must be
contiguous, non-empty, and the final range unbounded. -/
def chainFrom : Nat → List ForkRule → Bool
  | _, [] => false
  | lo, [r] => decide (r.start = lo) && decide (r.stop = none)
  | lo, r :: r2 :: rest =>
      decide (r.start = lo) &&
        match r.stop with
        | none => false
        | some e => decide (lo < e) && chainFrom e (r2 :: rest)

/-- A table is well-formed when its ranges are gapless from zero,
non-overlapping and cover every height. -/
def wellFormed (rules : List ForkRule) : Bool := chainFrom 0 rules

/-- Modelled from the spec: the fork rule table, immutable after its
construction-time invariant check. -/
structure ForkTable where
  rules : List ForkRule
  wf : wellFormed rules = true

/-- The fatal configuration error raised only at setup. -/
inductive ConfigurationFailure where
  | malformedTable
deriving DecidableEq, Repr

/-- Modelled from the spec: table construction fails fatally, with a
configuration error, exactly when the table is malformed. -/
def mkForkTable (rules : List ForkRule) : Except ConfigurationFailure ForkTable :=
  if h : wellFormed rules = true then .ok ⟨rules, h⟩
  else .error .malformedTable

/-- The fallback rule, never reached on a well-formed table. -/
def fallbackRule : ForkRule := { start := 0, stop := none, ruleId := 0 }

/-- Modelled from the spec: `rule_for(height)`, a total function over
all non-negative heights, a simple range lookup; the construction-time
well-formedness check guarantees the lookup always finds a rule, so the
fallback is never reached. -/
def rule_for (t : ForkTable) (h : Nat) : ForkRule :=
  (t.rules.find? (fun r => containsHeight r h)).getD fallbackRule

/-! ## Block validator (spec section 4.4) -/

/-- The validation error taxonomy of spec section 7; each constructor
names the check that failed. -/
inductive ValidationFailure where
  | structural
  | linkageParent
  | linkageNumber
  | consensusTimestamp
  | consensusDifficulty
  | ommers
  | consensusGasLimit
deriving DecidableEq, Repr

/-- Modelled from the spec: structural header checks: gas used within
the gas limit and extra data within its fixed size bound. -/
def structuralOk (h : BlockHeader) : Bool :=
  decide (h.gas_used ≤ h.gas_limit) && decide (h.extra_data.length ≤ 32)

/-- Absolute difference on naturals, for the gas-limit deviation
check. -/
def natDist (a b : Nat) : Nat := if a ≥ b then a - b else b - a

/-- Modelled from the spec: the gas limit must stay above the protocol
minimum and must not deviate from the parent by more than the allowed
fraction of the parent limit. -/
def gasLimitOk (rule : ForkRule) (parent : BlockHeader) (h : BlockHeader) : Bool :=
  decide (5000 ≤ h.gas_limit) &&
    decide (natDist h.gas_limit parent.gas_limit
      < parent.gas_limit / rule.gasLimitBoundDivisor + 1)

/-- Modelled from the spec: ommer checks statable against the parent
header alone: at most two ommers, each within the ancestor-proximity
depth window below the new block. -/
def ommersOk (parent : BlockHeader) (ommers : List BlockHeader) : Bool :=
  decide (ommers.length ≤ 2) &&
    ommers.all (fun o =>
      decide (o.block_number < parent.block_number + 1) &&
        decide (parent.block_number + 1 ≤ o.block_number + 7))

/-- Modelled from the spec: `validate(block, parent_header, rule)`, the
ordered, short-circuiting checks of section 4.4: structural, linkage,
timestamp and difficulty per the rule policy, ommers, gas-limit
deviation. -/
def validate (rule : ForkRule) (parent : BlockHeader) (b : Block) :
    Except ValidationFailure Unit :=
  if ¬ structuralOk b.header then .error .structural
  else if b.header.parent_hash ≠ headerHash parent then .error .linkageParent
  else if b.header.block_number ≠ parent.block_number + 1 then .error .linkageNumber
  else if ¬ parent.timestamp < b.header.timestamp then .error .consensusTimestamp
  else if b.header.difficulty ≠ rule.diffPolicy parent b.header.timestamp then
    .error .consensusDifficulty
  else if ¬ ommersOk parent b.ommers then .error .ommers
  else if ¬ gasLimitOk rule parent b.header then .error .consensusGasLimit
  else .ok ()

/-! ## State transition engine (spec section 4.5) -/

/-- The transaction validation error kinds of spec section 7. -/
inductive TxValidationFailure where
  | invalidSignature
  | invalidNonce
  | insufficientFunds
deriving DecidableEq, Repr

/-- Per-transaction execution summary. -/
structure Receipt where
  status : Bool
  gasUsed : Nat
  cumulativeGas : Nat
  bloom : Nat
deriving DecidableEq, Repr

/-- Modelled from the spec: the opaque deterministic execution function:
given the rule and the pre-state it executes one transaction and
produces the post-state, the gas consumed, and the success status. -/
abbrev ExecFn := ForkRule → ChainState → Transaction → ChainState × Nat × Bool

/-- The upfront cost a sender must cover before execution. -/
def upfrontCost (tx : Transaction) : Nat :=
  tx.gasLimit * tx.gasPrice + tx.value

/-- Modelled from the spec: the validation-layer transaction checks:
signature, nonce match against the sender account, balance covering the
upfront cost. -/
def validateTx (st : ChainState) (tx : Transaction) : Option TxValidationFailure :=
  if tx.sigValid = false then some .invalidSignature
  else if tx.nonce ≠ (lookupAccount st tx.sender).nonce then some .invalidNonce
  else if (lookupAccount st tx.sender).balance < upfrontCost tx then
    some .insufficientFunds
  else none

/-- Modelled from the spec: applying one already-validated transaction:
deduct the upfront cost and bump the sender nonce, run the opaque
execution, cap gas at the transaction limit, refund the unused gas.
Returns the post-state, the gas used and the execution status. -/
def applyValidTx (exec : ExecFn) (rule : ForkRule) (st : ChainState)
    (tx : Transaction) : ChainState × Nat × Bool :=
  let sender := lookupAccount st tx.sender
  let st1 := setAccount st tx.sender
    { sender with balance := sender.balance - upfrontCost tx, nonce := sender.nonce + 1 }
  let res := exec rule st1 tx
  let gasUsed := min res.2.1 tx.gasLimit
  let after := lookupAccount res.1 tx.sender
  let st3 := setAccount res.1 tx.sender
    { after with balance := after.balance + (tx.gasLimit - gasUsed) * tx.gasPrice }
  (st3, gasUsed, res.2.2)

/-- Modelled from the spec: the in-order transaction loop of
`apply_block`: each transaction is validated and then applied; the first
validation failure stops the loop, leaving the mutations of the earlier
transactions in place and never touching the failing transaction.
Returns the working state, the receipts so far, and the aborting error
if any. -/
def applyTxs (exec : ExecFn) (rule : ForkRule) :
    ChainState → Nat → List Transaction →
      ChainState × List Receipt × Option TxValidationFailure
  | st, _, [] => (st, [], none)
  | st, cum, tx :: rest =>
      match validateTx st tx with
      | some e => (st, [], some e)
      | none =>
          let step := applyValidTx exec rule st tx
          let r : Receipt := ⟨step.2.2, step.2.1, cum + step.2.1, 0⟩
          let tail := applyTxs exec rule step.1 (cum + step.2.1) rest
          (tail.1, r :: tail.2.1, tail.2.2)

/-- Modelled from the spec: block-level rewards applied after all
transactions: the coinbase is credited the block reward plus an
inclusion bonus per ommer, and each ommer coinbase is credited the
ommer reward, per the rule reward schedule. -/
def applyRewards (rule : ForkRule) (st : ChainState) (b : Block) : ChainState :=
  let base := lookupAccount st b.header.coinbase
  let st1 := setAccount st b.header.coinbase
    { base with balance :=
        base.balance + rule.blockReward + b.ommers.length * (rule.blockReward / 32) }
  b.ommers.foldl (fun acc o =>
    let oc := lookupAccount acc o.coinbase
    setAccount acc o.coinbase
      { oc with balance := oc.balance + rule.blockReward * 7 / 8 }) st1

/-- Modelled from the spec: `apply_block(state, block, rule)`: run every
transaction in order, abort the whole block on the first validation
failure, otherwise apply the reward schedule and return the post-state
and receipts. -/
def apply_block (exec : ExecFn) (rule : ForkRule) (st : ChainState) (b : Block) :
    Except TxValidationFailure (ChainState × List Receipt) :=
  match applyTxs exec rule st 0 b.transactions with
  | (st1, rs, none) => .ok (applyRewards rule st1 b, rs)
  | (_, _, some e) => .error e

/-! ## Chain manager (spec section 4.6) -/

/-- Modelled from the spec: the chain manager: the canonical chain as an
append-only header sequence indexed by block number (genesis at index
zero, the head being the last entry), the account-state store, and the
immutable fork rule table. -/
structure ChainManager where
  canonical : List BlockHeader
  state : ChainState
  table : ForkTable

/-- Modelled from the spec: seeding a chain from an externally supplied
genesis header and initial account state. -/
def from_genesis (table : ForkTable) (genesis : BlockHeader)
    (genesisState : ChainState) : ChainManager :=
  ⟨[genesis], genesisState, table⟩

/-- Pure read query: the canonical header at a block number. -/
def get_canonical_header_by_number (c : ChainManager) (n : Nat) : Option BlockHeader :=
  c.canonical.get? n

/-- Pure read query: the current head header. -/
def get_head (c : ChainManager) : Option BlockHeader := c.canonical.getLast?

/-- Pure read query: the rule set active at a block number, resolved
through the fork rule table. -/
def get_vm_rule_for_block_number (c : ChainManager) (n : Nat) : ForkRule :=
  rule_for c.table n

/-- The typed rejection reasons surfaced by `import_block`. -/
inductive RejectReason where
  | nonHeadImport
  | unknownParent
  | validation (e : ValidationFailure)
  | transaction (e : TxValidationFailure)
deriving DecidableEq, Repr

/-- The outcome of an import: the accepted block, or a typed
rejection. -/
inductive ImportResult where
  | accepted (b : Block)
  | rejected (r : RejectReason)
deriving DecidableEq, Repr

/-- Modelled from the spec: `import_block(block)`: a re-import of an
already-canonical block is an idempotent no-op returning Accepted; a
new block must extend the head, the active rule is resolved from the
declared height, the validator and the transition engine run in order,
and any failure returns Rejected leaving chain and state exactly as
before; on success the header is appended, the head advances and the
accepted block is returned unchanged. -/
def import_block (exec : ExecFn) (c : ChainManager) (b : Block) :
    ImportResult × ChainManager :=
  if c.canonical.get? b.header.block_number = some b.header then
    (.accepted b, c)
  else if b.header.block_number ≠ c.canonical.length then
    (.rejected .nonHeadImport, c)
  else
    match c.canonical.get? (b.header.block_number - 1) with
    | none => (.rejected .unknownParent, c)
    | some parent =>
        match validate (get_vm_rule_for_block_number c b.header.block_number)
            parent b with
        | .error e => (.rejected (.validation e), c)
        | .ok _ =>
            match apply_block exec
                (get_vm_rule_for_block_number c b.header.block_number)
                c.state b with
            | .error e => (.rejected (.transaction e), c)
            | .ok res =>
                (.accepted b,
                 { c with canonical := c.canonical ++ [b.header], state := res.1 })

/-! ## Codec boundary and block ingestion (spec section 6, test lines 218 to 231) -/

/-- The codec failure kinds: truncated input is a decoding failure, an
out-of-range field value is a deserialization failure. -/
inductive CodecFailure where
  | decodingFailure
  | deserializationFailure
deriving DecidableEq, Repr

/-- Modelled from the spec: canonical encoding of a transaction as a
fixed run of seven numbers. -/
def encodeTx (tx : Transaction) : List Nat :=
  [tx.sender, tx.toAddr, tx.value, tx.nonce, tx.gasPrice, tx.gasLimit,
   if tx.sigValid then 1 else 0]

/-- Modelled from the spec: transaction decoding; fails with a decoding
failure on truncation and a deserialization failure on a signature flag
outside zero and one. -/
def decodeTx : List Nat → Except CodecFailure (Transaction × List Nat)
  | s :: t :: v :: n :: gp :: gl :: sv :: rest =>
      if sv = 0 then .ok (⟨s, t, v, n, gp, gl, false⟩, rest)
      else if sv = 1 then .ok (⟨s, t, v, n, gp, gl, true⟩, rest)
      else .error .deserializationFailure
  | _ => .error .decodingFailure

/-- Modelled from the spec: canonical encoding of a header: the thirteen
fixed fields, the length-prefixed extra data, then the two proof-of-work
fields. -/
def encodeHeader (h : BlockHeader) : List Nat := headerFields h

/-- Modelled from the spec: header decoding, the inverse shape of
`encodeHeader`; fails with a decoding failure on truncation. -/
def decodeHeader : List Nat → Except CodecFailure (BlockHeader × List Nat)
  | ph :: uh :: cb :: sr :: tr :: rr :: bl :: df :: num :: gl :: gu :: ts :: elen :: rest =>
      if elen ≤ rest.length then
        match rest.drop elen with
        | mh :: nn :: rest2 =>
            .ok (⟨ph, uh, cb, sr, tr, rr, bl, df, num, gl, gu, ts,
                  rest.take elen, mh, nn⟩, rest2)
        | _ => .error .decodingFailure
      else .error .decodingFailure
  | _ => .error .decodingFailure

/-- Modelled from the spec: decode a count-prefixed run of entries with
a given entry decoder. -/
def decodeRun (dec : List Nat → Except CodecFailure (α × List Nat)) :
    Nat → List Nat → Except CodecFailure (List α × List Nat)
  | 0, l => .ok ([], l)
  | n + 1, l =>
      match dec l with
      | .error e => .error e
      | .ok (a, rest) =>
          match decodeRun dec n rest with
          | .error e => .error e
          | .ok (as, rest2) => .ok (a :: as, rest2)

/-- Modelled from the spec: canonical encoding of a block: header, then
count-prefixed transactions, then count-prefixed ommer headers. -/
def encodeBlock (b : Block) : List Nat :=
  encodeHeader b.header ++
    (b.transactions.length :: (b.transactions.map encodeTx).flatten) ++
    (b.ommers.length :: (b.ommers.map encodeHeader).flatten)

/-- Modelled from the spec: block decoding at the ingestion boundary;
any malformed input is surfaced as a codec failure, trailing bytes
included. -/
def decodeBlock (bytes : List Nat) : Except CodecFailure Block :=
  match decodeHeader bytes with
  | .error e => .error e
  | .ok (h, r1) =>
      match r1 with
      | [] => .error .decodingFailure
      | ntx :: r2 =>
          match decodeRun decodeTx ntx r2 with
          | .error e => .error e
          | .ok (txs, r3) =>
              match r3 with
              | [] => .error .decodingFailure
              | nom :: r4 =>
                  match decodeRun decodeHeader nom r4 with
                  | .error e => .error e
                  | .ok (oms, r5) =>
                      match r5 with
                      | [] => .ok ⟨h, txs, oms⟩
                      | _ :: _ => .error .deserializationFailure

/-- The three distinguishable outcomes a caller of the ingestion
boundary branches on. -/
inductive IngestOutcome where
  | imported (b : Block) (c : ChainManager)
  | codecFailure (e : CodecFailure)
  | invalidBlock (r : RejectReason) (c : ChainManager)

/-- Modelled from the spec: the block ingestion boundary of the fixture
test: decode the raw bytes, surfacing codec failures as their own
outcome, then import the decoded block, surfacing a rejection as a
distinct validation outcome. -/
def ingest_block_bytes (exec : ExecFn) (c : ChainManager) (bytes : List Nat) :
    IngestOutcome :=
  match decodeBlock bytes with
  | .error e => .codecFailure e
  | .ok b =>
      match import_block exec c b with
      | (.accepted b2, c2) => .imported b2 c2
      | (.rejected r, c2) => .invalidBlock r c2

/-! ## Concrete fixtures used by the witnesses -/

/-- The concrete pairwise hash used by the witnesses. -/
def hashW : HashFn := fun a b => 2 * a + 3 * b + 1

/-- The first rule of the boundary-test table: range `[0, 10)`. -/
def ruleA : ForkRule := { start := 0, stop := some 10, ruleId := 1 }

/-- The second rule of the boundary-test table: range `[10, 20)`. -/
def ruleB : ForkRule := { start := 10, stop := some 20, ruleId := 2 }

/-- The third rule of the boundary-test table: unbounded range from
height 20. -/
def ruleC : ForkRule := { start := 20, stop := none, ruleId := 3 }

/-- The three-range table of the boundary test. -/
def forkTable3 : ForkTable := ⟨[ruleA, ruleB, ruleC], by decide⟩

/-- The genesis header used by the chain witnesses. -/
def genesisW : BlockHeader :=
  { parent_hash := 0, uncles_hash := 0, coinbase := 1, state_root := 0,
    transaction_root := 0, receipt_root := 0, bloom := 0, difficulty := 100,
    block_number := 0, gas_limit := 100000, gas_used := 0, timestamp := 50,
    extra_data := [], mix_hash := 0, nonce := 0 }

/-- A header correctly linked onto the witness genesis. -/
def childHeaderW : BlockHeader :=
  { parent_hash := headerHash genesisW, uncles_hash := 0, coinbase := 1,
    state_root := 0, transaction_root := 0, receipt_root := 0, bloom := 0,
    difficulty := 100, block_number := 1, gas_limit := 100000, gas_used := 0,
    timestamp := 60, extra_data := [], mix_hash := 0, nonce := 0 }

/-- A valid empty block extending the witness genesis. -/
def childBlockW : Block := ⟨childHeaderW, [], []⟩

/-- The trivially successful execution function used by the chain
witnesses: a stub of the opaque deterministic execution contract. -/
def execW : ExecFn := fun _ st _ => (st, 0, true)

/-- The initial witness account state: address 1 holds balance 100 at
nonce 0. -/
def st0W : ChainState := [(1, ⟨100, 0, [], []⟩)]

/-- A well-formed witness transaction from address 1 at nonce 0. -/
def tx0W : Transaction :=
  { sender := 1, toAddr := 2, value := 1, nonce := 0, gasPrice := 0,
    gasLimit := 5, sigValid := true }

/-- A witness transaction reusing nonce 0, malformed once `tx0W` has
been applied. -/
def badTxW : Transaction :=
  { sender := 1, toAddr := 2, value := 1, nonce := 0, gasPrice := 0,
    gasLimit := 5, sigValid := true }

/-- The witness chain: the three-range table seeded with the witness
genesis and account state. -/
def chainW : ChainManager := from_genesis forkTable3 genesisW st0W

/-- A block declaring a height far beyond the head, rejected as a
non-head import. -/
def badBlockW : Block := ⟨{ genesisW with block_number := 5 }, [], []⟩

/-- The witness genesis block, already canonical in the witness
chain. -/
def genesisBlockW : Block := ⟨genesisW, [], []⟩

/-! ## Merkle tree lemmas -/

/-- Combining a level-`d` node with its sibling, ordered by the parity
of its index, yields its parent node at level `d + 1`. -/
theorem node_pair_step (H : HashFn) (leaves : List Digest) (d i : Nat) :
    (if i % 2 = 1 then H (node H leaves d (sibIdx i)) (node H leaves d i)
     else H (node H leaves d i) (node H leaves d (sibIdx i)))
      = node H leaves (d + 1) (i / 2) := by
  rcases Nat.mod_two_eq_zero_or_one i with hp | hp
  · have h2 : 2 * (i / 2) = i := by omega
    have hs : sibIdx i = i + 1 := by simp [sibIdx, hp]
    rw [if_neg (by omega), hs]
    show H (node H leaves d i) (node H leaves d (i + 1))
      = node H leaves (d + 1) (i / 2)
    rw [node, h2]
  · have h2 : 2 * (i / 2) = i - 1 := by omega
    have h3 : 2 * (i / 2) + 1 = i := by omega
    have hs : sibIdx i = i - 1 := by simp [sibIdx, hp]
    rw [if_pos hp, hs]
    rw [node, h3, h2]

/-- Recombining a level-`d` node with the sibling path of `count`
levels reproduces the ancestor node `count` levels up. -/
theorem recomb_sibsUp (H : HashFn) (leaves : List Digest) :
    ∀ count d i, recomb H (node H leaves d i) (sibsUp H leaves d i count) i
      = node H leaves (d + count) (i / 2 ^ count) := by
  intro count
  induction count with
  | zero => intro d i; simp [sibsUp, recomb]
  | succ c ih =>
      intro d i
      rw [sibsUp, recomb, node_pair_step, ih (d + 1) (i / 2)]
      have h1 : d + 1 + c = d + (c + 1) := by omega
      have h2 : i / 2 / 2 ^ c = i / 2 ^ (c + 1) := by
        rw [Nat.div_div_eq_div_mul, Nat.pow_succ, Nat.mul_comm]
      rw [h1, h2]

/-- Recombining over a proof whose last entry is the size marker is the
plain sibling recombination hashed once more with the marker. -/
theorem mixRecomb_append (H : HashFn) :
    ∀ sibs leaf index m, mixRecomb H leaf (sibs ++ [m]) index
      = H (recomb H leaf sibs index) m := by
  intro sibs
  induction sibs with
  | nil => intro leaf index m; simp [mixRecomb, recomb]
  | cons s rest ih =>
      intro leaf index m
      cases rest with
      | nil => simp [mixRecomb, recomb]
      | cons r rs =>
          rw [List.cons_append, List.cons_append, mixRecomb,
            ← List.cons_append, ih]
          conv_rhs => rw [recomb]

/-- C2: verify_proof is a total boolean predicate: for a tree of depth
`D` built from leaves `L` (a well-formed tree holds at most `2 ^ D`
leaves), recombining `L[i]` with `proof_for(i)` verifies against the
computed root for every real leaf index `i`; and for any well-typed
proof of the fixed length `depth + 1` whose recombination does not equal
the root, it returns false rather than raising an error. -/
theorem verify_proof_sound_total (H : HashFn) (D : Nat) (leaves : List Digest)
    (i : Nat) (hle : leaves.length ≤ 2 ^ D) (hi : i < leaves.length) :
    verify_proof H (leaves.get ⟨i, hi⟩) (proof_for H leaves D i) i
        (compute_root H leaves D) = true
    ∧ ∀ leaf proof index root, proof.length = D + 1 →
        mixRecomb H leaf proof index ≠ root →
        verify_proof H leaf proof index root = false := by
  constructor
  · have hleaf : leaves.get ⟨i, hi⟩ = node H leaves 0 i := by simp [node, hi]
    rw [verify_proof, proof_for, mixRecomb_append, hleaf, recomb_sibsUp]
    have hz : i / 2 ^ D = 0 := Nat.div_eq_of_lt (lt_of_lt_of_le hi hle)
    rw [hz, Nat.zero_add]
    simp [compute_root]
  · intro leaf proof index root _ hne
    simp [verify_proof, hne]

/-- Witness for C2 at a depth-2 tree over three leaves, index 1. -/
theorem verify_proof_sound_total_witness :
    ([5, 7, 9] : List Digest).length ≤ 2 ^ 2 ∧
      verify_proof hashW (([5, 7, 9] : List Digest).get ⟨1, by decide⟩)
        (proof_for hashW [5, 7, 9] 2 1) 1 (compute_root hashW [5, 7, 9] 2) = true :=
  ⟨by decide, (verify_proof_sound_total hashW 2 [5, 7, 9] 1 (by decide) (by decide)).1⟩

/-! ## Deposit record theorems -/

/-- C8: every Deposit carries a proof that is a fixed-length ordered
sequence of exactly tree depth + 1 digests of 32 bytes each. -/
theorem deposit_proof_shape (d : Deposit) :
    d.proof.val.length = DEPOSIT_CONTRACT_TREE_DEPTH + 1 ∧
      ∀ h ∈ d.proof.val, h.val.length = 32 :=
  ⟨d.proof.property, fun h _ => h.property⟩

/-- Witness for C8, instantiated at the default Deposit. -/
theorem deposit_proof_shape_witness :
    defaultDeposit.proof.val.length = DEPOSIT_CONTRACT_TREE_DEPTH + 1 ∧
      ∀ h ∈ defaultDeposit.proof.val, h.val.length = 32 :=
  deposit_proof_shape defaultDeposit

/-- C9: a Deposit constructed with no arguments has a proof equal to
the all-zero 32-byte digest repeated tree depth + 1 times, and the
default DepositData. -/
theorem default_deposit_placeholder :
    defaultDeposit.proof.val
        = List.replicate (DEPOSIT_CONTRACT_TREE_DEPTH + 1) ZERO_HASH32
    ∧ defaultDeposit.data = default_deposit_data
    ∧ ZERO_HASH32.val = List.replicate 32 0 :=
  ⟨rfl, rfl, rfl⟩

/-! ## Fork rule table theorems -/

/-- A well-formed rule list has a rule containing any height at or
above its lower bound. -/
theorem chainFrom_covers (rules : List ForkRule) :
    ∀ lo h, chainFrom lo rules = true → lo ≤ h →
      (rules.find? (fun r => containsHeight r h)).isSome = true := by
  induction rules with
  | nil => intro lo h hc _; simp [chainFrom] at hc
  | cons r rest ih =>
      intro lo h hc hlo
      cases rest with
      | nil =>
          simp only [chainFrom, Bool.and_eq_true, decide_eq_true_eq] at hc
          have : containsHeight r h = true := by
            simp [containsHeight, hc.1, hc.2, hlo]
          simp [List.find?, this]
      | cons r2 rest2 =>
          simp only [chainFrom, Bool.and_eq_true, decide_eq_true_eq] at hc
          obtain ⟨hstart, hrest⟩ := hc
          cases hstop : r.stop with
          | none => rw [hstop] at hrest; simp at hrest
          | some e =>
              rw [hstop] at hrest
              simp only [Bool.and_eq_true, decide_eq_true_eq] at hrest
              obtain ⟨hlt, hchain⟩ := hrest
              by_cases hhe : h < e
              · have : containsHeight r h = true := by
                  simp [containsHeight, hstart, hstop, hlo, hhe]
                simp [List.find?, this]
              · have hcont : containsHeight r h = false := by
                  simp [containsHeight, hstop]
                  intro _; omega
                have := ih e h hchain (by omega)
                simpa [List.find?, hcont] using this

/-- The rule resolved for a height always contains that height. -/
theorem rule_for_contains (t : ForkTable) (h : Nat) :
    containsHeight (rule_for t h) h = true := by
  have hs := chainFrom_covers t.rules 0 h t.wf (Nat.zero_le h)
  obtain ⟨r, hr⟩ := Option.isSome_iff_exists.mp hs
  have hp := List.find?_some hr
  rw [rule_for, hr]
  simpa using hp

/-- C3: rule_for is a total function over all non-negative heights,
failing only for a malformed table at construction time; the rule set
resolved during import at a height always contains that height; and on
the three-range table the correct rule is selected at the boundary
heights 0, 9, 10, 19, 20 and at a large height. -/
theorem fork_rule_resolution :
    (∀ rules, (∃ t, mkForkTable rules = .ok t) ↔ wellFormed rules = true)
    ∧ (∀ c n, get_vm_rule_for_block_number c n = rule_for c.table n)
    ∧ (∀ t h, containsHeight (rule_for t h) h = true)
    ∧ (rule_for forkTable3 0).ruleId = 1
    ∧ (rule_for forkTable3 9).ruleId = 1
    ∧ (rule_for forkTable3 10).ruleId = 2
    ∧ (rule_for forkTable3 19).ruleId = 2
    ∧ (rule_for forkTable3 20).ruleId = 3
    ∧ (rule_for forkTable3 1000000000).ruleId = 3 := by
  refine ⟨?_, fun _ _ => rfl, rule_for_contains, rfl, rfl, rfl, rfl, rfl, rfl⟩
  intro rules
  constructor
  · rintro ⟨t, ht⟩
    by_contra hw
    simp [mkForkTable, hw] at ht
  · intro hw
    exact ⟨⟨rules, hw⟩, by simp [mkForkTable, hw]⟩

/-- Witness for C3, selecting the rule at height 10 and exhibiting a
successful table construction. -/
theorem fork_rule_resolution_witness :
    (rule_for forkTable3 10).ruleId = 2 ∧
      containsHeight (rule_for forkTable3 10) 10 = true :=
  ⟨fork_rule_resolution.2.2.2.2.2.1, fork_rule_resolution.2.2.1 forkTable3 10⟩

/-! ## Block validator theorems -/

/-- C6: for every (header, parent header) pair accepted by the
validator, the block number is exactly one more than the parent number
and the parent-hash field is the hash of the parent header. -/
theorem validator_linkage (rule : ForkRule) (parent : BlockHeader) (b : Block)
    (h : validate rule parent b = .ok ()) :
    b.header.block_number = parent.block_number + 1 ∧
      b.header.parent_hash = headerHash parent := by
  unfold validate at h
  split_ifs at h with h1 h2 h3 h4 h5 h6 h7
  all_goals try simp at h
  exact ⟨not_not.mp h3, not_not.mp h2⟩

/-- Witness for C6: a concrete accepted pair satisfies the linkage
invariant. -/
theorem validator_linkage_witness :
    validate ruleA genesisW childBlockW = .ok () ∧
      (childBlockW.header.block_number = genesisW.block_number + 1 ∧
        childBlockW.header.parent_hash = headerHash genesisW) :=
  ⟨rfl, validator_linkage ruleA genesisW childBlockW rfl⟩

/-! ## State transition engine theorems -/

/-- Unfolding of the transaction loop at a transaction failing
validation: the loop stops with the current state. -/
theorem applyTxs_cons_some (exec : ExecFn) (rule : ForkRule) (st : ChainState)
    (cum : Nat) (tx : Transaction) (rest : List Transaction)
    (e : TxValidationFailure) (h : validateTx st tx = some e) :
    applyTxs exec rule st cum (tx :: rest) = (st, [], some e) := by
  simp [applyTxs, h]

/-- Unfolding of the transaction loop at a transaction passing
validation: the transaction is applied, a receipt is recorded, and the
loop continues on the post-state. -/
theorem applyTxs_cons_none (exec : ExecFn) (rule : ForkRule) (st : ChainState)
    (cum : Nat) (tx : Transaction) (rest : List Transaction)
    (h : validateTx st tx = none) :
    applyTxs exec rule st cum (tx :: rest) =
      ((applyTxs exec rule (applyValidTx exec rule st tx).1
          (cum + (applyValidTx exec rule st tx).2.1) rest).1,
       ⟨(applyValidTx exec rule st tx).2.2, (applyValidTx exec rule st tx).2.1,
         cum + (applyValidTx exec rule st tx).2.1, 0⟩ ::
         (applyTxs exec rule (applyValidTx exec rule st tx).1
           (cum + (applyValidTx exec rule st tx).2.1) rest).2.1,
       (applyTxs exec rule (applyValidTx exec rule st tx).1
         (cum + (applyValidTx exec rule st tx).2.1) rest).2.2) := by
  simp [applyTxs, h]

/-- Appending a validation-failing transaction after a prefix that runs
clean stops the loop at the failure: the working state and receipts of
the prefix are kept, and the failing transaction and everything after
it are never applied. -/
theorem applyTxs_append_fail (exec : ExecFn) (rule : ForkRule) :
    ∀ (pre : List Transaction) (st : ChainState) (cum : Nat)
      (st1 : ChainState) (rs : List Receipt) (bad : Transaction)
      (rest : List Transaction) (e : TxValidationFailure),
      applyTxs exec rule st cum pre = (st1, rs, none) →
      validateTx st1 bad = some e →
      applyTxs exec rule st cum (pre ++ bad :: rest) = (st1, rs, some e) := by
  intro pre
  induction pre with
  | nil =>
      intro st cum st1 rs bad rest e h hv
      simp only [applyTxs, Prod.mk.injEq] at h
      obtain ⟨h1, h2, -⟩ := h
      subst h1
      subst h2
      simp only [List.nil_append]
      simp [applyTxs, hv]
  | cons tx pre ih =>
      intro st cum st1 rs bad rest e h hv
      cases hval : validateTx st tx with
      | some e2 =>
          rw [applyTxs_cons_some exec rule st cum tx pre e2 hval] at h
          simp at h
      | none =>
          rw [applyTxs_cons_none exec rule st cum tx pre hval] at h
          rw [List.cons_append,
            applyTxs_cons_none exec rule st cum tx (pre ++ bad :: rest) hval]
          rcases hT : applyTxs exec rule (applyValidTx exec rule st tx).1
              (cum + (applyValidTx exec rule st tx).2.1) pre with ⟨T1, T2, T3⟩
          rw [hT] at h
          simp only [Prod.mk.injEq] at h
          obtain ⟨h1, h2, h3⟩ := h
          subst h3
          have hres := ih (applyValidTx exec rule st tx).1
            (cum + (applyValidTx exec rule st tx).2.1) T1 T2 bad rest e hT
            (by rw [h1]; exact hv)
          rw [hres]
          simp only [Prod.mk.injEq]
          exact ⟨h1, h2, trivial⟩

/-- C5: if a transaction of a block is malformed at the validation
layer, the whole block import is aborted and that transaction is never
partially applied, while the state mutations performed by the earlier
transactions of the same block remain in place in the working state: no
intra-block rollback happens. -/
theorem apply_block_abort_no_rollback (exec : ExecFn) (rule : ForkRule)
    (st : ChainState) (hdr : BlockHeader) (oms : List BlockHeader)
    (pre rest : List Transaction) (bad : Transaction)
    (st1 : ChainState) (rs : List Receipt) (e : TxValidationFailure)
    (hpre : applyTxs exec rule st 0 pre = (st1, rs, none))
    (hbad : validateTx st1 bad = some e) :
    applyTxs exec rule st 0 (pre ++ bad :: rest) = (st1, rs, some e) ∧
      apply_block exec rule st ⟨hdr, pre ++ bad :: rest, oms⟩ = .error e := by
  have h := applyTxs_append_fail exec rule pre st 0 st1 rs bad rest e hpre hbad
  refine ⟨h, ?_⟩
  unfold apply_block
  rw [h]

/-- Witness for C5: after one clean transaction, a stale-nonce
transaction aborts the block while the first mutation stays in the
working state. -/
theorem apply_block_abort_no_rollback_witness :
    applyTxs execW ruleA st0W 0 [tx0W]
        = ([(1, ⟨99, 1, [], []⟩)], [⟨true, 0, 0, 0⟩], none) ∧
      validateTx [(1, ⟨99, 1, [], []⟩)] badTxW = some .invalidNonce ∧
      (applyTxs execW ruleA st0W 0 ([tx0W] ++ badTxW :: [])
          = ([(1, ⟨99, 1, [], []⟩)], [⟨true, 0, 0, 0⟩], some .invalidNonce) ∧
        apply_block execW ruleA st0W ⟨genesisW, [tx0W] ++ badTxW :: [], []⟩
          = .error .invalidNonce) :=
  ⟨rfl, rfl,
    apply_block_abort_no_rollback execW ruleA st0W genesisW [] [tx0W] [] badTxW
      [(1, ⟨99, 1, [], []⟩)] [⟨true, 0, 0, 0⟩] .invalidNonce rfl rfl⟩

/-! ## Chain manager theorems -/

/-- Every call of `import_block` either accepts the block it was given
unchanged, with an untouched or head-extended chain, or rejects it with
the chain exactly as before. -/
theorem import_block_shape (exec : ExecFn) (c : ChainManager) (b : Block) :
    import_block exec c b = (.accepted b, c)
    ∨ (∃ r, import_block exec c b = (.rejected r, c))
    ∨ (∃ st, import_block exec c b
        = (.accepted b, ⟨c.canonical ++ [b.header], st, c.table⟩)) := by
  by_cases h1 : c.canonical.get? b.header.block_number = some b.header
  · refine .inl ?_
    unfold import_block
    rw [if_pos h1]
  · by_cases h2 : b.header.block_number = c.canonical.length
    · rcases hp : c.canonical.get? (b.header.block_number - 1) with _ | parent
      · refine .inr (.inl ⟨.unknownParent, ?_⟩)
        unfold import_block
        rw [if_neg h1, if_neg (by simp [h2]), hp]
      · rcases hv : validate (get_vm_rule_for_block_number c b.header.block_number)
            parent b with e | u
        · refine .inr (.inl ⟨.validation e, ?_⟩)
          unfold import_block
          rw [if_neg h1, if_neg (by simp [h2]), hp]
          simp [hv]
        · rcases ha : apply_block exec
              (get_vm_rule_for_block_number c b.header.block_number)
              c.state b with e | res
          · refine .inr (.inl ⟨.transaction e, ?_⟩)
            unfold import_block
            rw [if_neg h1, if_neg (by simp [h2]), hp]
            simp [hv, ha]
          · refine .inr (.inr ⟨res.1, ?_⟩)
            unfold import_block
            rw [if_neg h1, if_neg (by simp [h2]), hp]
            simp [hv, ha]
    · refine .inr (.inl ⟨.nonHeadImport, ?_⟩)
      unfold import_block
      rw [if_neg h1, if_pos h2]

/-- C1: import is atomic: whenever `import_block` rejects a block, for
any failure of the validator or of the transition engine, the canonical
chain and the account-state store are exactly as before the call; the
conjuncts also show that a validator failure and a transaction
validation failure are indeed surfaced as rejections with the chain
unchanged. -/
theorem import_block_atomicity :
    (∀ (exec : ExecFn) (c : ChainManager) (b : Block) r c',
        import_block exec c b = (.rejected r, c') → c' = c)
    ∧ (∀ (exec : ExecFn) (c : ChainManager) (b : Block) parent e,
        ¬ c.canonical.get? b.header.block_number = some b.header →
        b.header.block_number = c.canonical.length →
        c.canonical.get? (b.header.block_number - 1) = some parent →
        validate (get_vm_rule_for_block_number c b.header.block_number) parent b
          = .error e →
        import_block exec c b = (.rejected (.validation e), c))
    ∧ (∀ (exec : ExecFn) (c : ChainManager) (b : Block) parent e,
        ¬ c.canonical.get? b.header.block_number = some b.header →
        b.header.block_number = c.canonical.length →
        c.canonical.get? (b.header.block_number - 1) = some parent →
        validate (get_vm_rule_for_block_number c b.header.block_number) parent b
          = .ok () →
        apply_block exec (get_vm_rule_for_block_number c b.header.block_number)
          c.state b = .error e →
        import_block exec c b = (.rejected (.transaction e), c)) := by
  refine ⟨?_, ?_, ?_⟩
  · intro exec c b r c' h
    rcases import_block_shape exec c b with hs | ⟨r2, hs⟩ | ⟨st, hs⟩
    · rw [hs] at h
      simp at h
    · rw [hs] at h
      simp only [Prod.mk.injEq] at h
      exact h.2.symm
    · rw [hs] at h
      simp at h
  · intro exec c b parent e hnc hlen hparent hval
    unfold import_block
    rw [if_neg hnc, if_neg (by simp [hlen]), hparent]
    simp [hval]
  · intro exec c b parent e hnc hlen hparent hval happ
    unfold import_block
    rw [if_neg hnc, if_neg (by simp [hlen]), hparent]
    simp [hval, happ]

/-- Witness for C1: a concrete rejected import leaves the chain
untouched. -/
theorem import_block_atomicity_witness :
    import_block execW chainW badBlockW = (.rejected .nonHeadImport, chainW) ∧
      chainW = chainW :=
  ⟨rfl, import_block_atomicity.1 execW chainW badBlockW .nonHeadImport chainW rfl⟩

/-- C4: importing a block that is already canonical at its height is an
idempotent no-op: the call returns Accepted and the chain, its canonical
contents and its head pointer included, is unchanged. -/
theorem import_block_idempotent (exec : ExecFn) (c : ChainManager) (b : Block)
    (h : c.canonical.get? b.header.block_number = some b.header) :
    import_block exec c b = (.accepted b, c) := by
  unfold import_block
  rw [if_pos h]

/-- Witness for C4: re-importing the canonical genesis block returns
Accepted and the unchanged chain. -/
theorem import_block_idempotent_witness :
    chainW.canonical.get? genesisBlockW.header.block_number
        = some genesisBlockW.header ∧
      import_block execW chainW genesisBlockW = (.accepted genesisBlockW, chainW) :=
  ⟨rfl, import_block_idempotent execW chainW genesisBlockW rfl⟩

/-- C10: every accepted import returns the very block that was passed
in, so the returned block is encoding-equal to the imported one. -/
theorem import_block_returns_same_block (exec : ExecFn) (c : ChainManager)
    (b b2 : Block) (c2 : ChainManager)
    (h : import_block exec c b = (.accepted b2, c2)) :
    b2 = b ∧ encodeBlock b2 = encodeBlock b := by
  have hb : b2 = b := by
    rcases import_block_shape exec c b with hs | ⟨r2, hs⟩ | ⟨st, hs⟩
    · rw [hs] at h
      simp only [Prod.mk.injEq, ImportResult.accepted.injEq] at h
      exact h.1.symm
    · rw [hs] at h
      simp at h
    · rw [hs] at h
      simp only [Prod.mk.injEq, ImportResult.accepted.injEq] at h
      exact h.1.symm
  exact ⟨hb, by rw [hb]⟩

/-- Witness for C10: a concrete accepted import returns the identical,
encoding-equal block. -/
theorem import_block_returns_same_block_witness :
    import_block execW chainW genesisBlockW = (.accepted genesisBlockW, chainW) ∧
      (genesisBlockW = genesisBlockW ∧
        encodeBlock genesisBlockW = encodeBlock genesisBlockW) :=
  ⟨rfl, import_block_returns_same_block execW chainW genesisBlockW genesisBlockW
    chainW rfl⟩

/-! ## Ingestion boundary theorems -/

/-- C7: a failure to decode the block bytes is surfaced as a codec
failure outcome carrying the DecodingError or DeserializationError, a
rejection of a well-formed block is surfaced as a distinct validation
outcome, and the two outcomes are never equal, so a caller can
distinguish badly formed bytes from a well-formed but consensus-invalid
block. -/
theorem ingest_error_discrimination :
    (∀ (exec : ExecFn) (c : ChainManager) bytes e,
        decodeBlock bytes = .error e →
        ingest_block_bytes exec c bytes = .codecFailure e)
    ∧ (∀ (exec : ExecFn) (c : ChainManager) bytes b r c2,
        decodeBlock bytes = .ok b →
        import_block exec c b = (.rejected r, c2) →
        ingest_block_bytes exec c bytes = .invalidBlock r c2)
    ∧ (∀ e r c2, IngestOutcome.codecFailure e ≠ IngestOutcome.invalidBlock r c2) := by
  refine ⟨?_, ?_, ?_⟩
  · intro exec c bytes e h
    unfold ingest_block_bytes
    rw [h]
  · intro exec c bytes b r c2 h1 h2
    unfold ingest_block_bytes
    rw [h1]
    simp [h2]
  · intro e r c2 h
    exact IngestOutcome.noConfusion h

/-- Witness for C7: empty input fails to decode and is surfaced as a
decoding failure, distinct from any validation outcome. -/
theorem ingest_error_discrimination_witness :
    ingest_block_bytes execW chainW [] = .codecFailure .decodingFailure ∧
      IngestOutcome.codecFailure .decodingFailure
        ≠ IngestOutcome.invalidBlock .nonHeadImport chainW :=
  ⟨ingest_error_discrimination.1 execW chainW [] .decodingFailure rfl,
    ingest_error_discrimination.2.2 .decodingFailure .nonHeadImport chainW⟩

end Trinity
